import Mathlib

/-
Verification of the cpp-thunk repository: a lazy-value library providing a
DeferredValue (Lazy, src/lazy.cc and src/lazy_functionless.cc) that re-runs its
computation on every observation, and a MemoizedValue (Thunk) that caches the
result of the first successful observation.  Two Thunk implementations exist:

* src/thunk.cc stores a std::function d_lambda; the constructor installs a
  wrapper lambda capturing the user computation and the object's own address
  (the this pointer); running the wrapper invokes the computation and then
  overwrites the d_lambda of the object the wrapper POINTS TO with a constant
  lambda returning the result.  Because the defaulted copy constructor copies
  the std::function verbatim, a copy's wrapper still targets the original
  object; we model this faithfully with a heap of function values indexed by
  object addresses.

* src/thunk_lambda.cc stores a std::variant of the computation and the result;
  the body of visit runs the computation and replaces the variant alternative
  with the result, the emplace being reached only after the call returns.
  However, both visit and operator Result are declared
  noexcept(noexcept(std::declval<Lambda>())), and since std::declval is itself
  noexcept and the lambda is never invoked in that operand, this is
  unconditionally noexcept(true): a computation that raises escapes the visit
  body only as far as the non-throwing boundary, whereupon the program calls
  std::terminate.  We model the visit body's slot logic (Thunk.visit) and, on
  top of it, the observation through the noexcept boundary (nxObserve), which
  turns an escaping raise into termination of the program.

Computations are modelled as state transformers over an external state sigma
(carrying any side effects, such as counters or logs); a raised exception is
modelled as the Option none result, with the state still updated by whatever
side effects happened before the raise.
-/

namespace CppThunk

/-- A zero-argument, side-effect-capable computation producing R: it transforms
an external state and either returns a value (some) or raises (none). -/
def Computation (σ R : Type) : Type := σ → Option R × σ

/-- Instrumentation used to state claims about how often a computation is
invoked: the same computation, additionally counting its invocations. -/
def withCount {σ R : Type} (c : Computation σ R) : Computation (σ × ℕ) R :=
  fun p => ((c p.1).1, ((c p.1).2, p.2 + 1))

/-- Reference iteration: running a computation n times in sequence, collecting
the n outcomes.  Used to state the recompute-every-time property. -/
def runN {σ R : Type} : ℕ → Computation σ R → σ → List (Option R) × σ
  | 0, _, s => ([], s)
  | n + 1, c, s =>
    match c s with
    | (o, s') =>
      match runN n c s' with
      | (os, s'') => (o :: os, s'')

/-! ## The variant-based Thunk of src/thunk_lambda.cc

The member d_thunk is a std::variant of the Lambda and the Result; we keep the
source's two alternatives as the two constructors. -/

/-- State of the variant-based Thunk of src/thunk_lambda.cc: the d_thunk member
holds either the not-yet-run computation (the Lambda alternative) or the cached
result (the Result alternative). -/
inductive Thunk (σ R : Type) : Type
  | lam (c : Computation σ R)
  | res (v : R)

/-- The BODY of Thunk::visit of src/thunk_lambda.cc (the std::visit callback):
on the Result alternative return the cached value; on the Lambda alternative
run the computation and, only if it returns (the emplace is reached only after
the call returns), replace the variant with the result.  When the computation
raises, the raise leaves the body before the emplace, so the variant still
holds the computation; the none outcome here is the raise escaping the body.
What then happens to that raise at the member functions' noexcept boundary is
NOT part of this definition: the actual observation through operator Result is
nxObserve below, which turns it into termination of the program. -/
def Thunk.visit {σ R : Type} : Thunk σ R → σ → Option R × Thunk σ R × σ
  | .res v, s => (some v, .res v, s)
  | .lam c, s =>
    match c s with
    | (some v, s') => (some v, .res v, s')
    | (none, s') => (none, .lam c, s')

/-- Iterated observation of a single variant-based Thunk instance (operator
Result called n times in sequence), collecting the n outcomes. -/
def Thunk.visitN {σ R : Type} : ℕ → Thunk σ R → σ → List (Option R) × Thunk σ R × σ
  | 0, t, s => ([], t, s)
  | n + 1, t, s =>
    match t.visit s with
    | (o, t', s') =>
      match Thunk.visitN n t' s' with
      | (os, t'', s'') => (o :: os, t'', s'')

/-- The template operator T of src/thunk_lambda.cc: static_cast of the observed
Result to T, modelled by an abstract conversion function applied to the
observation's outcome.  The memoization transition is the one of visit. -/
def Thunk.convert {σ R T : Type} (conv : R → T) (t : Thunk σ R) (s : σ) :
    Option T × Thunk σ R × σ :=
  match t.visit s with
  | (o, t', s') => (o.map conv, t', s')

/-- The constructor of src/thunk_lambda.cc (and make_thunk): it initializes the
variant with the lambda; the ambient state is passed through untouched and the
computation is not invoked. -/
def Thunk.make {σ R : Type} (c : Computation σ R) (s : σ) : Thunk σ R × σ :=
  (.lam c, s)

/-- Outcome of one observation of the variant Thunk through its operator
Result as actually declared in src/thunk_lambda.cc: either the call returns a
value (with the successor slot and state), or the program has terminated — no
value, no successor slot, only the side effects made before the raise. -/
inductive NxOut (σ R : Type) : Type
  | ret (v : R) (t : Thunk σ R) (s : σ)
  | term (s : σ)

/-- The operator Result of src/thunk_lambda.cc as actually declared: it is
noexcept(noexcept(std::declval<Lambda>())), and std::declval is itself
noexcept while the lambda is never invoked in that operand, so the specifier
is unconditionally noexcept(true) (the author evidently meant the lambda-call
form).  A computation that raises inside the visit body therefore meets a
non-throwing boundary and the program calls std::terminate: the failure is
never propagated to the caller, and no retry can ever happen. -/
def nxObserve {σ R : Type} (t : Thunk σ R) (s : σ) : NxOut σ R :=
  match t.visit s with
  | (some v, t', s') => .ret v t' s'
  | (none, _, s') => .term s'

/-- Outcome of a sequence of observations of the variant Thunk through the
noexcept boundary: either all of them returned, or the program terminated
part-way and the later observations never happened. -/
inductive NxRun (σ R : Type) : Type
  | alive (os : List R) (t : Thunk σ R) (s : σ)
  | dead (os : List R) (s : σ)

/-- Iterated observation of the variant Thunk through the noexcept boundary:
once an observation terminates the program, the sequence ends. -/
def nxObserveN {σ R : Type} : ℕ → Thunk σ R → σ → NxRun σ R
  | 0, t, s => .alive [] t s
  | n + 1, t, s =>
    match nxObserve t s with
    | .term s' => .dead [] s'
    | .ret v t' s' =>
      match nxObserveN n t' s' with
      | .alive os t'' s'' => .alive (v :: os) t'' s''
      | .dead os s'' => .dead (v :: os) s''

/-! ## The std::function-based Thunk of src/thunk.cc

A Thunk object is identified by its address (a natural number).  Its d_lambda
member holds either the wrapper lambda installed by the constructor — which
captures the user computation by copy and the constructing object's address as
the this pointer — or the constant lambda installed after the first successful
run.  The defaulted copy constructor copies the d_lambda value verbatim, so a
copy of a pending Thunk holds a wrapper that still targets the original. -/

/-- Value of the d_lambda member of the src/thunk.cc Thunk: either the
constructor's wrapper lambda (carrying the captured computation and the address
of the object whose d_lambda it will overwrite) or the constant lambda holding
the already-computed result. -/
inductive FunVal (σ R : Type) : Type
  | wrapper (target : ℕ) (c : Computation σ R)
  | const (v : R)

/-- Heap of src/thunk.cc Thunk objects: the d_lambda value stored at each
address. -/
def Heap (σ R : Type) : Type := ℕ → FunVal σ R

/-- Pointwise heap update. -/
def hUpdate {σ R : Type} (h : Heap σ R) (a : ℕ) (fv : FunVal σ R) : Heap σ R :=
  fun n => if n = a then fv else h n

/-- The constructor of src/thunk.cc at address a: it installs the wrapper
lambda capturing the computation and the object's own address; the computation
is not invoked and the ambient state is passed through untouched. -/
def construct {σ R : Type} (h : Heap σ R) (a : ℕ) (c : Computation σ R) (s : σ) :
    Heap σ R × σ :=
  (hUpdate h a (.wrapper a c), s)

/-- The defaulted copy constructor of src/thunk.cc: the d_lambda value of the
source object is copied verbatim into the destination object, target pointer
included. -/
def copy {σ R : Type} (h : Heap σ R) (src dst : ℕ) : Heap σ R :=
  hUpdate h dst (h src)

/-- Invoking a d_lambda value (as the call d_lambda() does): the constant
lambda returns the cached result and changes nothing; the wrapper lambda runs
the captured computation and, if it returns, overwrites the d_lambda of its
captured target with the constant lambda before returning the result.  When
the computation raises, the exception propagates before the assignment, so the
heap is unchanged. -/
def callFun {σ R : Type} : FunVal σ R → Heap σ R → σ → Option R × Heap σ R × σ
  | .const v, h, s => (some v, h, s)
  | .wrapper t c, h, s =>
    match c s with
    | (some v, s') => (some v, hUpdate h t (.const v), s')
    | (none, s') => (none, h, s')

/-- The operator Result of src/thunk.cc on the object at address a: it invokes
that object's current d_lambda value. -/
def observe {σ R : Type} (h : Heap σ R) (a : ℕ) (s : σ) : Option R × Heap σ R × σ :=
  callFun (h a) h s

/-- The template operator T of src/thunk.cc: static_cast of the observed
Result to T, modelled by an abstract conversion function. -/
def observeConv {σ R T : Type} (conv : R → T) (h : Heap σ R) (a : ℕ) (s : σ) :
    Option T × Heap σ R × σ :=
  match observe h a s with
  | (o, h', s') => (o.map conv, h', s')

/-! ### The src/thunk.cc Thunk as a single, never-copied instance

For an instance that is never copied, the wrapper's captured target is the
instance itself, so the heap collapses to the state of the one d_lambda
member.  The lemma stepF_observe_agree below proves this projection against
the heap model. -/

/-- State of the d_lambda member of a single, never-copied src/thunk.cc Thunk:
the constructor's wrapper (still holding the computation) or the constant
lambda installed after the first successful run. -/
inductive FunState (σ R : Type) : Type
  | wrapper (c : Computation σ R)
  | const (v : R)

/-- One observation of a single, never-copied src/thunk.cc Thunk: the wrapper
runs the computation and on success replaces itself (through the captured this
pointer, which is the instance itself) with the constant lambda; on a raise it
is left unchanged; the constant lambda just returns the cached result. -/
def stepF {σ R : Type} : FunState σ R → σ → Option R × FunState σ R × σ
  | .const v, s => (some v, .const v, s)
  | .wrapper c, s =>
    match c s with
    | (some v, s') => (some v, .const v, s')
    | (none, s') => (none, .wrapper c, s')

/-- Iterated observation of a single, never-copied src/thunk.cc Thunk. -/
def stepFN {σ R : Type} : ℕ → FunState σ R → σ → List (Option R) × FunState σ R × σ
  | 0, t, s => ([], t, s)
  | n + 1, t, s =>
    match stepF t s with
    | (o, t', s') =>
      match stepFN n t' s' with
      | (os, t'', s'') => (o :: os, t'', s'')

/-- Interpretation of a single-instance src/thunk.cc state as a heap cell. -/
def FunState.asVal {σ R : Type} (a : ℕ) : FunState σ R → FunVal σ R
  | .wrapper c => .wrapper a c
  | .const v => .const v

/-- Faithfulness of the single-instance machine: on a heap whose cell a holds
the single-instance state (wrapper targeting a itself, as the constructor
installs it), observing cell a produces exactly the outcome, successor state
and state effect of stepF. -/
theorem stepF_observe_agree {σ R : Type} (fs : FunState σ R) (a : ℕ) (h : Heap σ R)
    (s : σ) (hc : h a = fs.asVal a) :
    observe h a s = ((stepF fs s).1, hUpdate h a ((stepF fs s).2.1.asVal a), (stepF fs s).2.2)
      ∨ (observe h a s = ((stepF fs s).1, h, (stepF fs s).2.2)
          ∧ (stepF fs s).2.1 = fs) := by
  cases fs with
  | const v =>
    right
    simp [observe, hc, FunState.asVal, callFun, stepF]
  | wrapper c =>
    rcases he : c s with ⟨o, s'⟩
    cases o with
    | some v =>
      left
      simp [observe, hc, FunState.asVal, callFun, stepF, he]
    | none =>
      right
      simp [observe, hc, FunState.asVal, callFun, stepF, he]

/-! ## The Thunk combination operator of src/thunk.cc

The binary operator over two Thunks builds, via make_thunk, a new Thunk whose
lambda captures BY COPY the two operand Thunk objects (hence snapshots of their
d_lambda values, whose wrappers still target the original operands) and, when
invoked, observes the left copy into a named temporary, then the right copy
into a named temporary, and returns their combination.  The combined Thunk is
itself a Thunk, so it memoizes its own result; the claims use it uncopied, so
its own memoization is modelled by the done alternative. -/

/-- State of a combined Thunk built by the operator of src/thunk.cc: pending
with the two captured operand d_lambda snapshots, or holding its own cached
result. -/
inductive CombSlot (σ L R S : Type) : Type
  | pend (fl : FunVal σ L) (fr : FunVal σ R)
  | done (v : S)

/-- Constructing the combination (the operator body up to make_thunk): the two
operand Thunks are captured by copy — snapshots of the d_lambda values at
addresses a and b — and nothing is invoked; the ambient state passes through
untouched. -/
def combMake {σ L R : Type} (S : Type) (hL : Heap σ L) (a : ℕ) (hR : Heap σ R)
    (b : ℕ) (s : σ) : CombSlot σ L R S × σ :=
  (.pend (hL a) (hR b), s)

/-- Observing a combined Thunk: when already computed, return the cached
combination.  When pending, invoke the left captured d_lambda snapshot (which,
if still a wrapper, runs the left computation and caches into the left
ORIGINAL's heap cell), then the right one, then combine; a raise in either
operand propagates before the combined Thunk's own caching, leaving it
pending, with any heap writes and side effects made so far kept. -/
def combObserve {σ L R S : Type} (op : L → R → S) :
    CombSlot σ L R S → Heap σ L → Heap σ R → σ →
      Option S × CombSlot σ L R S × Heap σ L × Heap σ R × σ
  | .done v, hL, hR, s => (some v, .done v, hL, hR, s)
  | .pend fl fr, hL, hR, s =>
    match callFun fl hL s with
    | (none, hL', s') => (none, .pend fl fr, hL', hR, s')
    | (some l, hL', s') =>
      match callFun fr hR s' with
      | (none, hR', s'') => (none, .pend fl fr, hL', hR', s'')
      | (some r, hR', s'') => (some (op l r), .done (op l r), hL', hR', s'')

/-! ## The Lazy wrapper of src/lazy.cc and src/lazy_functionless.cc

Lazy stores the computation and nothing else; every conversion re-invokes it.
The two source files differ only in how the callable is stored (std::function
versus the lambda type itself); both observation semantics are the single
stored computation run afresh. -/

/-- The Lazy wrapper: its only member is the stored computation. -/
structure Lazy (σ R : Type) : Type where
  lam : Computation σ R

/-- The operator Result of src/lazy.cc: invoke the stored computation. -/
def Lazy.observe {σ R : Type} (L : Lazy σ R) (s : σ) : Option R × σ :=
  L.lam s

/-- Iterated observation of a Lazy value; the Lazy itself never changes, so
only the external state is threaded. -/
def Lazy.observeN {σ R : Type} : ℕ → Lazy σ R → σ → List (Option R) × σ
  | 0, _, s => ([], s)
  | n + 1, L, s =>
    match L.observe s with
    | (o, s') =>
      match Lazy.observeN n L s' with
      | (os, s'') => (o :: os, s'')

/-- The template operator T of src/lazy.cc (and, with its explicit two-step
cast through Result, of src/lazy_functionless.cc): invoke the stored
computation and apply the Result-to-T conversion to the outcome. -/
def Lazy.convert {σ R T : Type} (conv : R → T) (L : Lazy σ R) (s : σ) :
    Option T × σ :=
  match L.lam s with
  | (o, s') => (o.map conv, s')

/-- The constructor of src/lazy.cc (and make_lazy): it stores the computation;
the ambient state passes through untouched and nothing is invoked. -/
def Lazy.make {σ R : Type} (c : Computation σ R) (s : σ) : Lazy σ R × σ :=
  (⟨c⟩, s)

/-- Evaluation order of the two operand observations inside the combining
expression of the Lazy operator of src/lazy.cc.  That expression evaluates
both observations as the two operands of the underlying binary operator, and
the language leaves their relative evaluation order unspecified, so both
orders are legal executions of the source. -/
inductive EvalOrder : Type
  | leftFirst
  | rightFirst
deriving DecidableEq

/-- The Lazy combination operator of src/lazy.cc: make_lazy over a lambda
capturing both operands by copy which, when invoked, observes both operands
and combines the results.  The first observed operand's raise propagates
before the other operand is observed.  The parameter ord picks one of the two
operand evaluation orders the source permits. -/
def lazyCombine {σ A B C : Type} (ord : EvalOrder) (l : Lazy σ A) (r : Lazy σ B)
    (op : A → B → C) : Lazy σ C :=
  ⟨fun s =>
    match ord with
    | .leftFirst =>
      match l.lam s with
      | (none, s') => (none, s')
      | (some a, s') =>
        match r.lam s' with
        | (none, s'') => (none, s'')
        | (some b, s'') => (some (op a b), s'')
    | .rightFirst =>
      match r.lam s with
      | (none, s') => (none, s')
      | (some b, s') =>
        match l.lam s' with
        | (none, s'') => (none, s'')
        | (some a, s'') => (some (op a b), s'')⟩

/-- Tags for observation-order logs. -/
inductive Side : Type
  | L
  | R
deriving DecidableEq

/-- A computation that records which operand ran, in an observation log. -/
def logSide (t : Side) : Computation (List Side) ℕ :=
  fun s => (some 0, s ++ [t])

/-! ## Helper lemmas -/

/-- Repeated observation of an already-computed variant Thunk yields the cached
value every time and changes nothing. -/
theorem Thunk.visitN_res {σ R : Type} (n : ℕ) (v : R) (s : σ) :
    Thunk.visitN n (Thunk.res v) s = (List.replicate n (some v), Thunk.res v, s) := by
  induction n with
  | zero => simp [Thunk.visitN]
  | succ n ih => simp [Thunk.visitN, Thunk.visit, ih, List.replicate_succ]

/-- Repeated observation of an already-computed single-instance function Thunk
yields the cached value every time and changes nothing. -/
theorem stepFN_const {σ R : Type} (n : ℕ) (v : R) (s : σ) :
    stepFN n (FunState.const v) s = (List.replicate n (some v), FunState.const v, s) := by
  induction n with
  | zero => simp [stepFN]
  | succ n ih => simp [stepFN, stepF, ih, List.replicate_succ]

/-! ## Claim theorems -/

/-- C1: for a single, never-copied MemoizedValue wrapping a computation with an
observable side effect (here: invocation-counted), observing N = n+1 >= 1 times
(in particular any N > 1) invokes the computation exactly once — its counter
ends at 1 and its side effect on the underlying state happened exactly once,
on the first call — and every one of the N observations returns the value of
that first invocation.  Proved for both Thunk implementations. -/
theorem thunk_single_evaluation {σ R : Type} (c : Computation σ R) (s : σ) (v : R)
    (s' : σ) (n : ℕ) (h : c s = (some v, s')) :
    Thunk.visitN (n + 1) (Thunk.lam (withCount c)) (s, 0)
        = (List.replicate (n + 1) (some v), Thunk.res v, (s', 1))
    ∧ stepFN (n + 1) (FunState.wrapper (withCount c)) (s, 0)
        = (List.replicate (n + 1) (some v), FunState.const v, (s', 1)) := by
  constructor
  · simp [Thunk.visitN, Thunk.visit, withCount, h, Thunk.visitN_res, List.replicate_succ]
  · simp [stepFN, stepF, withCount, h, stepFN_const, List.replicate_succ]

/-- C1 witness: a concrete computation with side effect (counter increment)
wrapped and observed three times: one invocation, all three results 7. -/
theorem thunk_single_evaluation_witness :
    (fun k => (some 7, k + 1) : Computation ℕ ℕ) 0 = (some 7, 1)
    ∧ (Thunk.visitN 3 (Thunk.lam (withCount (fun k => (some 7, k + 1)))) (0, 0)
        = (List.replicate 3 (some 7), Thunk.res 7, (1, 1))
      ∧ stepFN 3 (FunState.wrapper (withCount (fun k => (some 7, k + 1)))) (0, 0)
        = (List.replicate 3 (some 7), FunState.const 7, (1, 1))) :=
  ⟨rfl, thunk_single_evaluation (fun k => (some 7, k + 1)) 0 7 1 2 rfl⟩

/-- Unfolding one observation of an iterated variant-Thunk observation. -/
theorem Thunk.visitN_succ {σ R : Type} (n : ℕ) (t : Thunk σ R) (s : σ) :
    Thunk.visitN (n + 1) t s
      = ((t.visit s).1 :: (Thunk.visitN n (t.visit s).2.1 (t.visit s).2.2).1,
          (Thunk.visitN n (t.visit s).2.1 (t.visit s).2.2).2) := by
  rcases h : t.visit s with ⟨o, t', s'⟩
  rcases h2 : Thunk.visitN n t' s' with ⟨os, t'', s''⟩
  simp [Thunk.visitN, h, h2]

/-- Unfolding one observation of an iterated single-instance function-Thunk
observation. -/
theorem stepFN_succ {σ R : Type} (n : ℕ) (t : FunState σ R) (s : σ) :
    stepFN (n + 1) t s
      = ((stepF t s).1 :: (stepFN n (stepF t s).2.1 (stepF t s).2.2).1,
          (stepFN n (stepF t s).2.1 (stepF t s).2.2).2) := by
  rcases h : stepF t s with ⟨o, t', s'⟩
  rcases h2 : stepFN n t' s' with ⟨os, t'', s''⟩
  simp [stepFN, h, h2]

/-- A computation over a call-counter state that raises on its first K calls
and returns v on every later call; every call, failing or not, increments the
counter (its observable side effect). -/
def retryComp {R : Type} (K : ℕ) (v : R) : Computation ℕ R :=
  fun n => (if K ≤ n then some v else none, n + 1)

/-- Observation pattern of a single-instance function Thunk over retryComp:
identical to the variant Thunk's. -/
theorem stepFN_retry {R : Type} (d m : ℕ) (v : R) (j : ℕ) :
    stepFN (d + (m + 1)) (FunState.wrapper (retryComp (j + d) v)) j
      = (List.replicate d none ++ List.replicate (m + 1) (some v),
          FunState.const v, (j + d) + 1) := by
  induction d generalizing j with
  | zero =>
    simp only [Nat.add_zero, Nat.zero_add]
    simp [stepFN, stepF, retryComp, stepFN_const, List.replicate_succ]
  | succ d ih =>
    have e1 : (d + 1) + (m + 1) = (d + (m + 1)) + 1 := by omega
    have e2 : j + (d + 1) = (j + 1) + d := by omega
    rw [e1, e2]
    have hlt : ¬ ((j + 1) + d ≤ j) := by omega
    rw [stepFN_succ]
    have hv : stepF (FunState.wrapper (retryComp ((j + 1) + d) v)) j
        = (none, FunState.wrapper (retryComp ((j + 1) + d) v), j + 1) := by
      simp [stepF, retryComp, hlt]
    rw [hv, ih (j + 1)]
    simp [List.replicate_succ]

/-- C2 (code bug, src/thunk_lambda.cc): the claim's propagate-and-retry
behavior — documented as the design in the spec and implemented by the visit
body's emplace-only-after-success structure — holds for the std::function
Thunk of src/thunk.cc, as the first two conjuncts evaluate on a computation
raising on its first 2 calls and succeeding from call 3 on: the failing
observation propagates with the slot left Pending unchanged, and four
observations give two failures, a caching success, then a cached read, with
exactly 3 invocations (the final counter).  But for the variant Thunk the
noexcept(true) operator Result (noexcept(noexcept(std::declval<Lambda>()))
never invokes the lambda, an evident slip for the lambda-call form) turns the
very first raise into std::terminate: the last two conjuncts evaluate the
same computation there — the first observation terminates the program after
one invocation, no failure reaches the caller, and no retry ever happens. -/
theorem noexcept_terminate_bug :
    stepF (FunState.wrapper (retryComp 2 5)) 0
        = (none, FunState.wrapper (retryComp 2 5), 1)
    ∧ stepFN 4 (FunState.wrapper (retryComp 2 5)) 0
        = ([none, none, some 5, some 5], FunState.const 5, 3)
    ∧ nxObserve (Thunk.lam (retryComp 2 5)) 0 = NxOut.term 1
    ∧ nxObserveN 4 (Thunk.lam (retryComp 2 5)) 0 = NxRun.dead [] 1 :=
  ⟨rfl, rfl, rfl, rfl⟩

/-- An impure computation over a call-counter state: it returns the current
call index and increments the counter, so successive invocations return
different values. -/
def cIdx : Computation ℕ ℕ := fun n => (some n, n + 1)

/-- Heap before the scenario of the copy bug: arbitrary computed junk. -/
def bugH0 : Heap ℕ ℕ := fun _ => FunVal.const 99

/-- Heap after constructing the original std::function Thunk at address 0 over
cIdx, starting with call counter 0. -/
def bugH1 : Heap ℕ ℕ := (construct bugH0 0 cIdx 0).1

/-- Heap after copy-constructing, from the Pending original at address 0, a
second Thunk at address 1: the copied d_lambda is the wrapper that still
targets address 0. -/
def bugH2 : Heap ℕ ℕ := copy bugH1 0 1

/-- First observation of the copy at address 1. -/
def bugObs1 : Option ℕ × Heap ℕ ℕ × ℕ := observe bugH2 1 0

/-- Second observation of the copy at address 1, on the heap and counter left
by the first. -/
def bugObs2 : Option ℕ × Heap ℕ ℕ × ℕ := observe bugObs1.2.1 1 bugObs1.2.2

/-- C3 (code bug, src/thunk.cc): copy a Pending MemoizedValue and observe the
copy twice.  The copied d_lambda wrapper still captures the ORIGINAL object's
this pointer, so: the first observation of the copy runs the computation
(counter 1, value 0) and writes the cached constant into the ORIGINAL at
address 0 — mutating the original, which was never observed — while the copy
at address 1 stays Pending; the second observation of the copy therefore runs
the computation AGAIN (counter 2) and returns a different value 1, overwriting
the original's cache, so the copy never memoizes, contradicting the claimed
independent, non-shared copy semantics. -/
theorem copy_aliasing_bug :
    bugObs1.1 = some 0
    ∧ bugObs1.2.2 = 1
    ∧ bugObs1.2.1 0 = FunVal.const 0
    ∧ bugObs1.2.1 1 = FunVal.wrapper 0 cIdx
    ∧ bugObs2.1 = some 1
    ∧ bugObs2.2.2 = 2
    ∧ bugObs2.2.1 0 = FunVal.const 1 :=
  ⟨rfl, rfl, rfl, rfl, rfl, rfl, rfl⟩

/-- Contrast for C3: the variant-based Thunk of src/thunk_lambda.cc copies its
variant by value, so a Pending copy holds the computation itself and memoizes
independently, and a Computed copy holds the cached value and never re-invokes
the computation — exactly the claimed copy semantics, on any computation. -/
theorem variant_copy_independent {σ R : Type} (c : Computation σ R) (s s' : σ) (v : R)
    (h : c s = (some v, s')) (n : ℕ) (t : σ) :
    Thunk.visit (Thunk.lam c) s = (some v, Thunk.res v, s')
    ∧ Thunk.visitN n (Thunk.res v) t = (List.replicate n (some v), Thunk.res v, t) := by
  exact ⟨by simp [Thunk.visit, h], Thunk.visitN_res n v t⟩

/-- C4: with two freshly constructed MemoizedValue operands at addresses a and
b, constructing their combination with the binary operator invokes neither
operand (it only snapshots the two d_lambda values, state untouched); the
first observation of the combined value observes left then right and returns
their combination (a wrapper of 3 plus a wrapper of 4 yields 7 in the
witness), caching the combined result as a whole and also caching each operand
individually (each original's heap cell becomes the constant lambda); a later
observation of the combined value, or of either operand, returns the cached
value without invoking anything. -/
theorem combination_correct {σ L R S : Type}
    (cL : Computation σ L) (cR : Computation σ R) (op : L → R → S)
    (hL0 : Heap σ L) (hR0 : Heap σ R) (a b : ℕ)
    (hL : Heap σ L) (hR : Heap σ R)
    (hLdef : hL = hUpdate hL0 a (FunVal.wrapper a cL))
    (hRdef : hR = hUpdate hR0 b (FunVal.wrapper b cR))
    (s s' s'' : σ) (l : L) (r : R)
    (hl : cL s = (some l, s')) (hr : cR s' = (some r, s'')) :
    combMake S hL a hR b s
        = (CombSlot.pend (FunVal.wrapper a cL) (FunVal.wrapper b cR), s)
    ∧ combObserve op (CombSlot.pend (FunVal.wrapper a cL) (FunVal.wrapper b cR)) hL hR s
        = (some (op l r), CombSlot.done (op l r),
            hUpdate hL a (FunVal.const l), hUpdate hR b (FunVal.const r), s'')
    ∧ (∀ (hL2 : Heap σ L) (hR2 : Heap σ R) (t : σ),
        combObserve op (CombSlot.done (op l r)) hL2 hR2 t
          = (some (op l r), CombSlot.done (op l r), hL2, hR2, t))
    ∧ (∀ t : σ, observe (hUpdate hL a (FunVal.const l)) a t
        = (some l, hUpdate hL a (FunVal.const l), t))
    ∧ (∀ t : σ, observe (hUpdate hR b (FunVal.const r)) b t
        = (some r, hUpdate hR b (FunVal.const r), t)) := by
  subst hLdef hRdef
  refine ⟨?_, ?_, ?_, ?_, ?_⟩
  · simp [combMake, hUpdate]
  · simp [combObserve, callFun, hl, hr]
  · intro hL2 hR2 t
    simp [combObserve]
  · intro t
    simp [observe, hUpdate, callFun]
  · intro t
    simp [observe, hUpdate, callFun]

/-- A wrapped computation returning 3 (with a counter side effect). -/
def wThree : Computation ℕ ℕ := fun n => (some 3, n + 1)

/-- A wrapped computation returning 4 (with a counter side effect). -/
def wFour : Computation ℕ ℕ := fun n => (some 4, n + 1)

/-- Background heap for the combination witness. -/
def combBase : Heap ℕ ℕ := fun _ => FunVal.const 0

/-- Heap holding the freshly constructed left operand (wrapping 3). -/
def combHL : Heap ℕ ℕ := hUpdate combBase 0 (FunVal.wrapper 0 wThree)

/-- Heap holding the freshly constructed right operand (wrapping 4). -/
def combHR : Heap ℕ ℕ := hUpdate combBase 0 (FunVal.wrapper 0 wFour)

/-- C4 witness: combining a wrapper of 3 with a wrapper of 4 under addition:
construction invokes nothing; observing the combination yields 7 after exactly
two invocations (final counter 2), caches 7 as a whole and caches 3 and 4 into
the operands; later observations are quiet. -/
theorem combination_correct_witness :
    combMake ℕ combHL 0 combHR 0 0
        = (CombSlot.pend (FunVal.wrapper 0 wThree) (FunVal.wrapper 0 wFour), 0)
    ∧ combObserve (fun x y => x + y)
          (CombSlot.pend (FunVal.wrapper 0 wThree) (FunVal.wrapper 0 wFour)) combHL combHR 0
        = (some 7, CombSlot.done 7,
            hUpdate combHL 0 (FunVal.const 3), hUpdate combHR 0 (FunVal.const 4), 2)
    ∧ (∀ (hL2 : Heap ℕ ℕ) (hR2 : Heap ℕ ℕ) (t : ℕ),
        combObserve (fun x y => x + y) (CombSlot.done 7) hL2 hR2 t
          = (some 7, CombSlot.done 7, hL2, hR2, t))
    ∧ (∀ t : ℕ, observe (hUpdate combHL 0 (FunVal.const 3)) 0 t
        = (some 3, hUpdate combHL 0 (FunVal.const 3), t))
    ∧ (∀ t : ℕ, observe (hUpdate combHR 0 (FunVal.const 4)) 0 t
        = (some 4, hUpdate combHR 0 (FunVal.const 4), t)) :=
  combination_correct wThree wFour (fun x y => x + y) combBase combBase 0 0
    combHL combHR rfl rfl 0 1 2 3 4 rfl rfl

/-- C5: every wrapper converts to any type reachable through its result
type's own conversions by first resolving to the result type (one observation,
under the wrapper's own semantics — including the Thunk's memoization
transition) and then applying the conversion to the observed value; in
particular, for R convertible to T by f and T convertible to U by g, the
U-conversion of a wrapper over R is exactly the T-conversion followed by g,
with no further observation.  Proved for Lazy, the variant Thunk, and the
std::function Thunk. -/
theorem conversion_transitive {σ R T U : Type} (f : R → T) (g : T → U) :
    (∀ (L : Lazy σ R) (s : σ),
        Lazy.convert f L s = ((L.observe s).1.map f, (L.observe s).2)
        ∧ Lazy.convert (fun x => g (f x)) L s
            = ((Lazy.convert f L s).1.map g, (Lazy.convert f L s).2))
    ∧ (∀ (t : Thunk σ R) (s : σ),
        Thunk.convert f t s = ((t.visit s).1.map f, (t.visit s).2.1, (t.visit s).2.2)
        ∧ Thunk.convert (fun x => g (f x)) t s
            = ((Thunk.convert f t s).1.map g, (Thunk.convert f t s).2))
    ∧ (∀ (h : Heap σ R) (a : ℕ) (s : σ),
        observeConv f h a s = ((observe h a s).1.map f, (observe h a s).2)
        ∧ observeConv (fun x => g (f x)) h a s
            = ((observeConv f h a s).1.map g, (observeConv f h a s).2)) := by
  refine ⟨?_, ?_, ?_⟩
  · intro L s
    rcases h1 : L.lam s with ⟨o, s'⟩
    cases o <;> simp [Lazy.convert, Lazy.observe, h1]
  · intro t s
    rcases h1 : t.visit s with ⟨o, t', s'⟩
    cases o <;> simp [Thunk.convert, h1]
  · intro h a s
    rcases h1 : observe h a s with ⟨o, h', s'⟩
    cases o <;> simp [observeConv, h1]

/-- C6: constructing any of the wrappers — Lazy (also via make_lazy), the
variant Thunk (also via make_thunk), or the std::function Thunk — stores the
computation unevaluated and leaves the ambient state (any external state the
computation would touch, here invocation-counted) unchanged; the computation's
side effect happens only at the first observation, whose invocation counter is
then exactly 1. -/
theorem construction_no_evaluation {σ R : Type} (c : Computation σ R) (s : σ)
    (h : Heap σ R) (a : ℕ) :
    Thunk.make c s = (Thunk.lam c, s)
    ∧ Lazy.make c s = (⟨c⟩, s)
    ∧ construct h a c s = (hUpdate h a (FunVal.wrapper a c), s)
    ∧ Thunk.make (withCount c) (s, 0) = (Thunk.lam (withCount c), (s, 0))
    ∧ (Thunk.visit (Thunk.lam (withCount c)) (s, 0)).2.2.2 = 1
    ∧ (stepF (FunState.wrapper (withCount c)) (s, 0)).2.2.2 = 1
    ∧ (Lazy.observe ⟨withCount c⟩ (s, 0)).2.2 = 1 := by
  refine ⟨rfl, rfl, rfl, rfl, ?_, ?_, rfl⟩
  · rcases hc : c s with ⟨o, s'⟩
    cases o <;> simp [Thunk.visit, withCount, hc]
  · rcases hc : c s with ⟨o, s'⟩
    cases o <;> simp [stepF, withCount, hc]

/-- C7: a DeferredValue holds no cached state and is never mutated (the Lazy
value itself is not even threaded by observation); observing it N times
invokes the computation — and its side effect — exactly N times (final
invocation counter N), each observation re-running the computation from the
state the previous one left, so the N outcomes are exactly the N-fold
iteration of the computation. -/
theorem lazy_recompute_every_time {σ R : Type} (c : Computation σ R) (n : ℕ)
    (s : σ) (k : ℕ) :
    Lazy.observeN n ⟨withCount c⟩ (s, k) = ((runN n c s).1, ((runN n c s).2, k + n)) := by
  induction n generalizing s k with
  | zero => simp [Lazy.observeN, runN]
  | succ n ih =>
    rcases hc : c s with ⟨o, s'⟩
    rcases hr : runN n c s' with ⟨os, s''⟩
    have hstep : Lazy.observe ⟨withCount c⟩ (s, k) = (o, (s', k + 1)) := by
      simp [Lazy.observe, withCount, hc]
    have e : (k + 1) + n = k + (n + 1) := by omega
    simp only [Lazy.observeN, hstep, ih, hr, runN, hc, e]

/-- C8 counterexample: the claim asserts a left-strictly-before-right
observation order for every combination of either wrapper kind, but the Lazy
combination of src/lazy.cc performs the two operand observations as the two
operands of the underlying binary operator in one expression, whose evaluation
order the language leaves unspecified; under the legal right-first execution,
combining two logging computations records the RIGHT operand's observation
first, so the claimed order does not hold. -/
theorem combination_order_counterexample :
    ((lazyCombine EvalOrder.rightFirst ⟨logSide Side.L⟩ ⟨logSide Side.R⟩
        (fun x y => x + y)).lam []).2 = [Side.R, Side.L]
    ∧ [Side.R, Side.L] ≠ [Side.L, Side.R] :=
  ⟨rfl, by decide⟩

/-- C8 amended: when a combined value is observed, it observes both operands
exactly once and returns the combining operation applied to the two observed
results; for the THUNK combination of src/thunk.cc the left operand is
observed strictly before the right (the right computation runs on the left's
post-state), while for the LAZY combination of src/lazy.cc the code fixes no
relative order — both the left-first and the right-first executions are legal,
each threading the state through the first-observed operand before the
other. -/
theorem combination_order_amended :
    (∀ (σ A B C : Type) (cA : Computation σ A) (cB : Computation σ B)
        (op : A → B → C) (hL : Heap σ A) (hR : Heap σ B) (i j : ℕ)
        (s s₁ s₂ : σ) (a : A) (b : B),
        cA s = (some a, s₁) → cB s₁ = (some b, s₂) →
        combObserve op (CombSlot.pend (FunVal.wrapper i cA) (FunVal.wrapper j cB)) hL hR s
          = (some (op a b), CombSlot.done (op a b),
              hUpdate hL i (FunVal.const a), hUpdate hR j (FunVal.const b), s₂))
    ∧ (∀ (σ A B C : Type) (cA : Computation σ A) (cB : Computation σ B)
        (op : A → B → C) (s s₁ s₂ : σ) (a : A) (b : B),
        cA s = (some a, s₁) → cB s₁ = (some b, s₂) →
        (lazyCombine EvalOrder.leftFirst ⟨cA⟩ ⟨cB⟩ op).lam s = (some (op a b), s₂))
    ∧ (∀ (σ A B C : Type) (cA : Computation σ A) (cB : Computation σ B)
        (op : A → B → C) (s t₁ t₂ : σ) (a : A) (b : B),
        cB s = (some b, t₁) → cA t₁ = (some a, t₂) →
        (lazyCombine EvalOrder.rightFirst ⟨cA⟩ ⟨cB⟩ op).lam s = (some (op a b), t₂)) := by
  refine ⟨?_, ?_, ?_⟩
  · intro σ A B C cA cB op hL hR i j s s₁ s₂ a b h1 h2
    simp [combObserve, callFun, h1, h2]
  · intro σ A B C cA cB op s s₁ s₂ a b h1 h2
    simp [lazyCombine, h1, h2]
  · intro σ A B C cA cB op s t₁ t₂ a b h1 h2
    simp [lazyCombine, h1, h2]

/-- C8 witness: combining two logging computations; the Thunk combination and
the left-first Lazy execution record the left observation first, the
right-first Lazy execution records the right observation first, and all return
the combined value. -/
theorem combination_order_amended_witness :
    combObserve (fun x y => x + y)
        (CombSlot.pend (FunVal.wrapper 0 (logSide Side.L)) (FunVal.wrapper 1 (logSide Side.R)))
        (fun _ => FunVal.const 0) (fun _ => FunVal.const 0) []
      = (some 0, CombSlot.done 0,
          hUpdate (fun _ => FunVal.const 0) 0 (FunVal.const 0),
          hUpdate (fun _ => FunVal.const 0) 1 (FunVal.const 0), [Side.L, Side.R])
    ∧ (lazyCombine EvalOrder.leftFirst ⟨logSide Side.L⟩ ⟨logSide Side.R⟩
        (fun x y => x + y)).lam [] = (some 0, [Side.L, Side.R])
    ∧ (lazyCombine EvalOrder.rightFirst ⟨logSide Side.L⟩ ⟨logSide Side.R⟩
        (fun x y => x + y)).lam [] = (some 0, [Side.R, Side.L]) :=
  ⟨combination_order_amended.1 (List Side) ℕ ℕ ℕ (logSide Side.L) (logSide Side.R)
      (fun x y => x + y) (fun _ => FunVal.const 0) (fun _ => FunVal.const 0) 0 1
      [] [Side.L] [Side.L, Side.R] 0 0 rfl rfl,
   combination_order_amended.2.1 (List Side) ℕ ℕ ℕ (logSide Side.L) (logSide Side.R)
      (fun x y => x + y) [] [Side.L] [Side.L, Side.R] 0 0 rfl rfl,
   combination_order_amended.2.2 (List Side) ℕ ℕ ℕ (logSide Side.L) (logSide Side.R)
      (fun x y => x + y) [] [Side.R] [Side.R, Side.L] 0 0 rfl rfl⟩

/-- C9: once a MemoizedValue slot holds the computed value v, the operations
the wrapper offers on it — observation, conversion to another type, repeated
observation, and being captured as an operand of a combination — never return
the slot to Pending, never change v, and every observation returns exactly v
with no state effect.  Proved for the variant Thunk slot and for a computed
std::function Thunk heap cell. -/
theorem thunk_computed_monotone {σ R T : Type} (v : R) (s : σ) (n : ℕ)
    (conv : R → T) (h : Heap σ R) (a b : ℕ) (hc : h a = FunVal.const v) :
    Thunk.visit (Thunk.res v) s = (some v, Thunk.res v, s)
    ∧ Thunk.convert conv (Thunk.res v) s = (some (conv v), Thunk.res v, s)
    ∧ Thunk.visitN n (Thunk.res v) s = (List.replicate n (some v), Thunk.res v, s)
    ∧ observe h a s = (some v, h, s)
    ∧ observeConv conv h a s = (some (conv v), h, s)
    ∧ (∀ (S : Type) (hR : Heap σ R),
        combMake S h a hR b s = (CombSlot.pend (FunVal.const v) (hR b), s)) := by
  refine ⟨rfl, rfl, Thunk.visitN_res n v s, ?_, ?_, ?_⟩
  · simp [observe, hc, callFun]
  · simp [observeConv, observe, hc, callFun]
  · intro S hR
    simp [combMake, hc]

/-- C9 witness: a computed slot with value 9, a concrete conversion, three
repeated observations and a combination capture, all returning 9 and changing
nothing. -/
theorem thunk_computed_monotone_witness :
    (hUpdate combBase 2 (FunVal.const 9)) 2 = FunVal.const 9
    ∧ (Thunk.visit (Thunk.res 9) (0 : ℕ) = (some 9, Thunk.res 9, 0)
      ∧ Thunk.convert (fun x => x + 1) (Thunk.res 9) (0 : ℕ) = (some 10, Thunk.res 9, 0)
      ∧ Thunk.visitN 3 (Thunk.res 9) (0 : ℕ) = (List.replicate 3 (some 9), Thunk.res 9, 0)
      ∧ observe (hUpdate combBase 2 (FunVal.const 9)) 2 0
          = (some 9, hUpdate combBase 2 (FunVal.const 9), 0)
      ∧ observeConv (fun x => x + 1) (hUpdate combBase 2 (FunVal.const 9)) 2 0
          = (some 10, hUpdate combBase 2 (FunVal.const 9), 0)
      ∧ (∀ (S : Type) (hR : Heap ℕ ℕ),
          combMake S (hUpdate combBase 2 (FunVal.const 9)) 2 hR 5 0
            = (CombSlot.pend (FunVal.const 9) (hR 5), 0))) :=
  ⟨rfl, thunk_computed_monotone 9 0 3 (fun x => x + 1)
      (hUpdate combBase 2 (FunVal.const 9)) 2 5 rfl⟩

/-- Abstraction from the std::function Thunk single-instance state to the
variant Thunk state: the wrapper still holding the computation corresponds to
the Lambda alternative, the installed constant lambda to the Result
alternative. -/
def absF {σ R : Type} : FunState σ R → Thunk σ R
  | .wrapper c => .lam c
  | .const v => .res v

/-- Per-step correspondence of the two slot machines: one run of the visit
BODY on the abstraction of a function-Thunk state produces the same outcome,
the abstracted successor state and the same state effect as one observation of
the function Thunk.  This relates the slot logic only; the implementations
part ways at the noexcept boundary, where the function Thunk propagates a
raise while the variant Thunk terminates. -/
theorem absF_step {σ R : Type} (fs : FunState σ R) (s : σ) :
    Thunk.visit (absF fs) s
      = ((stepF fs s).1, absF (stepF fs s).2.1, (stepF fs s).2.2) := by
  cases fs with
  | const v => simp [absF, Thunk.visit, stepF]
  | wrapper c =>
    rcases hc : c s with ⟨o, s'⟩
    cases o <;> simp [absF, Thunk.visit, stepF, hc]

/-- C10 counterexample: the claimed observational equivalence fails exactly
when the computation raises.  Over the computation that raises on its first
call and returns 5 from the second call on, two observations of the
std::function Thunk of src/thunk.cc deliver the outcome sequence
[raise, 5] with two invocations (final counter 2) and a cached slot, while
the variant Thunk of src/thunk_lambda.cc — whose operator Result is
noexcept(true) — terminates the program during the first observation after a
single invocation (final counter 1), delivering no outcome at all; in
particular the invocation counts 2 and 1 differ. -/
theorem implementations_equivalent_counterexample :
    stepFN 2 (FunState.wrapper (retryComp 1 5)) 0
        = ([none, some 5], FunState.const 5, 2)
    ∧ nxObserveN 2 (Thunk.lam (retryComp 1 5)) 0 = NxRun.dead [] 1
    ∧ (2 : ℕ) ≠ 1 :=
  ⟨rfl, rfl, by decide⟩

/-- C10 amended: on a single, never-copied instance the two Thunk
implementations are observationally equivalent as long as no invocation of the
computation raises: whenever a sequence of observations of the std::function
Thunk yields only successful outcomes, the variant Thunk (observed through its
noexcept operator Result) stays alive and yields the same values, the same
state effects (hence the same invocation counts, for any instrumentation) and
the related successor slot.  When an invocation raises, the behaviors diverge:
the std::function Thunk propagates the failure leaving the slot Pending
unchanged (retry possible), while the variant Thunk terminates the program at
that point with the same side effects made so far. -/
theorem implementations_equivalent_amended :
    (∀ (σ R : Type) (n : ℕ) (fs : FunState σ R) (s : σ) (vs : List R)
        (fs' : FunState σ R) (s' : σ),
        stepFN n fs s = (vs.map some, fs', s') →
        nxObserveN n (absF fs) s = NxRun.alive vs (absF fs') s')
    ∧ (∀ (σ R : Type) (fs : FunState σ R) (s s₁ : σ),
        stepF fs s = (none, fs, s₁) →
        nxObserve (absF fs) s = NxOut.term s₁) := by
  constructor
  · intro σ R n
    induction n with
    | zero =>
      intro fs s vs fs' s' h
      simp only [stepFN, Prod.mk.injEq] at h
      obtain ⟨h1, h2, h3⟩ := h
      have hvs : vs = [] := List.map_eq_nil_iff.mp h1.symm
      subst hvs h2 h3
      simp [nxObserveN]
    | succ n ih =>
      intro fs s vs fs' s' h
      rcases hstep : stepF fs s with ⟨o, t1, s1⟩
      rcases hN : stepFN n t1 s1 with ⟨os, t2, s2⟩
      rw [stepFN_succ, hstep] at h
      dsimp only at h
      rw [hN] at h
      dsimp only at h
      simp only [Prod.mk.injEq] at h
      obtain ⟨h1, h2, h3⟩ := h
      cases vs with
      | nil => simp at h1
      | cons v vs' =>
        simp only [List.map_cons] at h1
        injection h1 with ho hos
        have hv : Thunk.visit (absF fs) s = (some v, absF t1, s1) := by
          rw [absF_step, hstep]
          simp [ho]
        have hnx : nxObserve (absF fs) s = NxOut.ret v (absF t1) s1 := by
          simp [nxObserve, hv]
        have hrec : nxObserveN n (absF t1) s1 = NxRun.alive vs' (absF fs') s' := by
          apply ih
          rw [hN, hos, h2, h3]
        simp [nxObserveN, hnx, hrec]
  · intro σ R fs s s₁ h
    cases fs with
    | const v => simp [stepF] at h
    | wrapper c =>
      rcases hc : c s with ⟨o, s'⟩
      cases o with
      | some v => simp [stepF, hc] at h
      | none =>
        simp [stepF, hc] at h
        subst h
        simp [nxObserve, absF, Thunk.visit, hc]

/-- C10 amended witness: a never-raising computation observed twice behaves
identically in both implementations (values 7 and 7, one invocation, cached
slot), and an always-raising computation makes the function Thunk propagate
with the slot unchanged while the variant Thunk terminates. -/
theorem implementations_equivalent_amended_witness :
    stepFN 2 (FunState.wrapper (fun n => (some 7, n + 1) : Computation ℕ ℕ)) 0
        = ([7, 7].map some, FunState.const 7, 1)
    ∧ nxObserveN 2 (Thunk.lam (fun n => (some 7, n + 1) : Computation ℕ ℕ)) 0
        = NxRun.alive [7, 7] (Thunk.res 7) 1
    ∧ stepF (FunState.wrapper (fun n => (none, n + 1) : Computation ℕ ℕ)) 0
        = (none, FunState.wrapper (fun n => (none, n + 1)), 1)
    ∧ nxObserve (Thunk.lam (fun n => (none, n + 1) : Computation ℕ ℕ)) 0
        = NxOut.term 1 :=
  ⟨rfl,
   implementations_equivalent_amended.1 ℕ ℕ 2 (FunState.wrapper (fun n => (some 7, n + 1)))
     0 [7, 7] (FunState.const 7) 1 rfl,
   rfl,
   implementations_equivalent_amended.2 ℕ ℕ (FunState.wrapper (fun n => (none, n + 1)))
     0 1 rfl⟩

end CppThunk
